import Mathlib

/-!
Verification development for the Huji-meet transcription pipeline.

JavaScript strings are embedded as `List Char` (`Str`), JS numbers that carry
time values as `ℚ` (the relevant arithmetic — `x * 1000`, `Math.round` — is
exact on the inputs of interest), and fallible JS accesses (`x ?? d`,
`x || d`) as `Option` with explicit defaulting.  Database rows are records,
the database is lists of rows, and each edge-function handler is a pure
function from its request data and the database to the new database, the
ordered list of persistence writes it performed, and its HTTP response.
-/

set_option maxRecDepth 8000

abbrev Str := List Char

/-- JS `Array.prototype.join(sep)`. -/
def joinSep (sep : Str) : List Str → Str
  | [] => []
  | [s] => s
  | s :: s' :: rest => s ++ sep ++ joinSep sep (s' :: rest)

/-- JS `String.prototype.split(c)` for a one-character separator. -/
def splitChar (c : Char) : Str → List Str
  | [] => [[]]
  | d :: rest =>
    if d = c then [] :: splitChar c rest
    else
      match splitChar c rest with
      | [] => [[d]]
      | s :: ss => (d :: s) :: ss

/-- JS `String.prototype.replace(pat, rep)` with a string pattern:
only the FIRST occurrence of `pat` in `s` is replaced; if `pat` does not
occur, `s` is returned unchanged. -/
def replaceFirst (s pat rep : Str) : Str :=
  match s with
  | [] => if pat = [] then rep else []
  | c :: rest =>
    if pat.isPrefixOf (c :: rest) then rep ++ (c :: rest).drop pat.length
    else c :: replaceFirst rest pat rep

/-- JS truthiness of an optional string (`undefined`, `null` and `''` are falsy). -/
def truthyStr : Option Str → Bool
  | none => false
  | some s => !s.isEmpty

/-- JS `a || b` for an optional string `a`. -/
def jsOrStr (a : Option Str) (b : Str) : Str :=
  match a with
  | none => b
  | some s => if s.isEmpty then b else s

/-- One word of the provider's word-level output
(`{ speaker_id?, start, end, text }`, times in seconds). -/
structure Word where
  speaker_id : Option Str
  start : Option ℚ
  stop : Option ℚ
  text : Option Str
deriving DecidableEq

/-- `word.speaker_id ?? 'speaker_0'`. -/
def spkOf (w : Word) : Str := w.speaker_id.getD ("speaker_0".toList)

/-- JS `Math.round(q)` (round half towards positive infinity), written on the
numerator/denominator representation so that it evaluates by kernel reduction;
`jsRound_eq_round` below shows it is Mathlib's `round`, i.e. `⌊q + 1/2⌋`. -/
def jsRound (q : ℚ) : ℤ := (2 * q.num + q.den) / (2 * q.den)

/-- `Math.round((t ?? 0) * 1000)`, written on the numerator/denominator
representation; `msOf_eq_round` below shows it equals `round ((t ?? 0) * 1000)`. -/
def msOf (t : Option ℚ) : ℤ :=
  (2 * 1000 * (t.getD 0).num + (t.getD 0).den) / (2 * (t.getD 0).den)

/-- `Math.round((word.start ?? 0) * 1000)`. -/
def msStart (w : Word) : ℤ := msOf w.start

/-- `Math.round((word.end ?? 0) * 1000)`. -/
def msEnd (w : Word) : ℤ := msOf w.stop

/-- `word.text ?? ''`. -/
def wtext (w : Word) : Str := w.text.getD []

/-- `` `Speaker ${spk.replace('speaker_', '')}` ``. -/
def speakerLabel (spk : Str) : Str :=
  ("Speaker ".toList) ++ replaceFirst spk ("speaker_".toList) []

/-- One row of `transcript_segments`. -/
structure Segment where
  meeting_id : Str
  speaker_id : Str
  speaker_label : Str
  start_ms : ℤ
  end_ms : ℤ
  text : Str
deriving DecidableEq

/-- The segment `segments.push({...})` builds from the loop state. -/
def segOf (m spk : Str) (s e : ℤ) (ws : List Str) : Segment :=
  ⟨m, spk, speakerLabel spk, s, e, joinSep [' '] ws⟩

/-- The word-walking loop shared verbatim by `start_transcription` and the
webhook handler: state is (`currentSpeaker`, `segmentStart`, `segmentWords`,
`segmentEnd`); a speaker change closes the current run, and after the loop a
non-empty run is flushed (`if (segmentWords.length > 0)`). -/
def buildLoop (m : Str) : List Word → Str → ℤ → List Str → ℤ → List Segment
  | [], cur, sStart, sWords, sEnd =>
    if sWords.isEmpty then [] else [segOf m cur sStart sEnd sWords]
  | w :: rest, cur, sStart, sWords, sEnd =>
    if spkOf w ≠ cur then
      segOf m cur sStart sEnd sWords ::
        buildLoop m rest (spkOf w) (msStart w) [wtext w] (msEnd w)
    else
      buildLoop m rest cur sStart (sWords ++ [wtext w]) (msEnd w)

/-- The full segment-building loop, initialized from `words[0]`
(`currentSpeaker = words[0].speaker_id ?? 'speaker_0'`,
`segmentStart = round((words[0].start ?? 0)*1000)`, `segmentWords = []`,
`segmentEnd = segmentStart`). -/
def buildSegments (m : Str) (words : List Word) : List Segment :=
  match words with
  | [] => []
  | w0 :: _ => buildLoop m words (spkOf w0) (msStart w0) [] (msStart w0)

/-- Modelled from the spec (§4.3, glossary "speaker run"), as the comparison
point for the loop above: the accumulator of maximal same-speaker runs,
mirroring the loop's control flow on word lists. -/
def runsAux (cur : Str) (acc : List Word) : List Word → List (List Word)
  | [] => if acc.isEmpty then [] else [acc]
  | w :: ws =>
    if spkOf w ≠ cur then acc :: runsAux (spkOf w) [w] ws
    else runsAux cur (acc ++ [w]) ws

/-- Modelled from the spec: the maximal same-speaker runs of a word list. -/
def runs : List Word → List (List Word)
  | [] => []
  | w :: ws => runsAux (spkOf w) [] (w :: ws)

/-- Modelled from the spec (§4.3 step 3): the segment a single run yields —
speaker of the first word, start of the first word, end of the last word,
space-joined texts. -/
def segOfRun (m : Str) : List Word → Segment
  | [] => segOf m [] 0 0 []
  | w :: ws =>
    segOf m (spkOf w) (msStart w) (msEnd (ws.getLastD w)) ((w :: ws).map wtext)

/-- Modelled from the spec (§8 Scenario A, with word times carried in seconds
by the provider: 500 ms is the rational `1/2` second, etc.). -/
def scenarioAWords : List Word :=
  [⟨some ("A".toList), some 0, some (mkRat 500 1000), some ("hi".toList)⟩,
   ⟨some ("A".toList), some (mkRat 500 1000), some (mkRat 900 1000), some ("there".toList)⟩,
   ⟨some ("B".toList), some 1, some (mkRat 1400 1000), some ("hello".toList)⟩]

/-- The JSON body the provider returns (synchronously or via webhook):
`{ status?, error?, words?, text?, duration? }`. -/
structure ProviderResult where
  status : Option Str
  error : Option Str
  words : Option (List Word)
  text : Option Str
  duration : Option ℚ
deriving DecidableEq

/-- One row of `transcription_jobs`. -/
structure JobRow where
  id : Str
  meeting_id : Str
  provider : Str
  status : Str
  error : Option Str
  raw_response : Option ProviderResult
  provider_job_id : Option Str
deriving DecidableEq

/-- One row of `meetings` (the fields this core reads or writes). -/
structure MeetingRow where
  id : Str
  status : Str
  duration_seconds : Option ℤ
  media_path : Str
deriving DecidableEq

/-- One row of `summaries` (the fields this core writes). -/
structure SummaryRow where
  id : Str
  meeting_id : Str
  version : ℤ
  template_id : Str
  model_id : Str
  content_md : Str
deriving DecidableEq

/-- The persisted state touched by the pipeline. -/
structure DB where
  meetings : List MeetingRow
  jobs : List JobRow
  segments : List Segment
  summaries : List SummaryRow
deriving DecidableEq

/-- One persistence write, in the order the handler issues them. -/
inductive DBWrite where
  | updateMeeting (id : Str) (status : Str)
  | insertJob (id : Str) (status : Str)
  | updateJob (id : Str) (status : Str)
  | insertSegments (meeting_id : Str) (n : ℕ)
  | insertSummary (meeting_id : Str) (version : ℤ)
deriving DecidableEq

/-- `supabase.from('transcription_jobs').update(f).eq('id', jobId)`. -/
def updateJobRows (db : DB) (jobId : Str) (f : JobRow → JobRow) : DB :=
  { db with jobs := db.jobs.map (fun r => if r.id = jobId then f r else r) }

/-- `supabase.from('meetings').update(f).eq('id', meetingId)`. -/
def updateMeetingRows (db : DB) (meetingId : Str) (f : MeetingRow → MeetingRow) : DB :=
  { db with meetings := db.meetings.map (fun r => if r.id = meetingId then f r else r) }

/-- `supabase.from('transcription_jobs').select('*').eq('id', jobId).single()`. -/
def findJob (db : DB) (jobId : Str) : Option JobRow :=
  db.jobs.find? (fun r => r.id == jobId)

/-- `payload.duration ? Math.round(payload.duration) : null` (identical in
`start_transcription` and the webhook handler; `0` is falsy in JS). -/
def jsDuration (d : Option ℚ) : Option ℤ :=
  match d with
  | none => none
  | some q => if q = 0 then none else some (jsRound q)

/-- The webhook environment: `Deno.env.get('WEBHOOK_SECRET')`. -/
structure WebhookEnv where
  webhookSecret : Option Str
deriving DecidableEq

/-- The webhook request: `secret` and `job_id` query parameters and the JSON
payload. -/
structure WebhookReq where
  secret : Option Str
  job_id : Option Str
  payload : ProviderResult
deriving DecidableEq

/-- The webhook handler's HTTP response. -/
structure WebhookResp where
  status : ℕ
  body : Str
deriving DecidableEq

/-- `expectedSecret && secret !== expectedSecret` (an unset or empty
`WEBHOOK_SECRET` is falsy, so the check is skipped). -/
def secretReject (env : WebhookEnv) (req : WebhookReq) : Bool :=
  match env.webhookSecret with
  | none => false
  | some s => !s.isEmpty && req.secret != some s

/-- The webhook handler's segment computation:
`const words = payload.words || []; if (words.length > 0) { ...build... }` —
no diarization gate and no plain-text fallback. -/
def webhookSegments (m : Str) (payload : ProviderResult) : List Segment :=
  let words := payload.words.getD []
  if words.isEmpty then [] else buildSegments m words

/-- The webhook callback handler (`src/unnamed/part_006`): secret check,
`job_id` check, job lookup, then the failure path
(`payload.status === 'failed' || payload.error`) or the success path
(mark job completed, build and insert segments, mark meeting ready). -/
def webhookHandler (env : WebhookEnv) (req : WebhookReq) (db : DB) :
    DB × List DBWrite × WebhookResp :=
  if secretReject env req then (db, [], ⟨403, "Forbidden".toList⟩)
  else
    match req.job_id with
    | none => (db, [], ⟨400, "Missing job_id".toList⟩)
    | some jobId =>
      match findJob db jobId with
      | none => (db, [], ⟨404, "Job not found".toList⟩)
      | some job =>
        let m := job.meeting_id
        let p := req.payload
        if p.status = some ("failed".toList) ∨ truthyStr p.error then
          let db1 := updateJobRows db jobId (fun r =>
            { r with status := "failed".toList,
                     error := some (jsOrStr p.error ("Unknown error".toList)),
                     raw_response := some p })
          let db2 := updateMeetingRows db1 m (fun r =>
            { r with status := "failed".toList })
          (db2,
           [DBWrite.updateJob jobId ("failed".toList),
            DBWrite.updateMeeting m ("failed".toList)],
           ⟨200, "OK".toList⟩)
        else
          let db1 := updateJobRows db jobId (fun r =>
            { r with status := "completed".toList, raw_response := some p })
          let segs := webhookSegments m p
          let db2 := if segs.isEmpty then db1
                     else { db1 with segments := db1.segments ++ segs }
          let db3 := updateMeetingRows db2 m (fun r =>
            { r with status := "ready".toList,
                     duration_seconds := jsDuration p.duration })
          (db3,
           [DBWrite.updateJob jobId ("completed".toList)] ++
             (if segs.isEmpty then [] else [DBWrite.insertSegments m segs.length]) ++
             [DBWrite.updateMeeting m ("ready".toList)],
           ⟨200, "OK".toList⟩)

/-- The caller-supplied transcription options of `start_transcription`. -/
structure SyncOptions where
  diarize : Option Bool
  tagAudioEvents : Option Bool
  modelId : Option Str
  languageCode : Option Str
deriving DecidableEq

/-- The `app_settings` singleton fields this core reads. -/
structure Settings where
  elevenlabs_diarize_default : Option Bool
  elevenlabs_tag_audio_events_default : Option Bool
  elevenlabs_default_model_id : Option Str
  openrouter_default_model : Option Str
  openrouter_max_tokens : Option ℤ
deriving DecidableEq

/-- The upstream speech-to-text HTTP response: status code, `.text()` body
(read on the failure branch) and `.json()` result (read on success). -/
structure UpstreamResp where
  status : ℕ
  body : Str
  result : ProviderResult
deriving DecidableEq

/-- `options?.diarize ?? settings?.elevenlabs_diarize_default ?? true`. -/
def effDiarize (options : Option SyncOptions) (settings : Option Settings) : Bool :=
  match options.bind (fun o => o.diarize) with
  | some b => b
  | none =>
    match settings.bind (fun s => s.elevenlabs_diarize_default) with
    | some b => b
    | none => true

/-- The synchronous path's segment computation:
`if (words.length > 0 && diarize) { ...build... } else if (result.text)
{ single fallback segment }` (an empty `result.text` is falsy). -/
def syncSegments (m : Str) (result : ProviderResult) (diarize : Bool) : List Segment :=
  let words := result.words.getD []
  if ¬words.isEmpty ∧ diarize = true then buildSegments m words
  else
    match result.text with
    | none => []
    | some t =>
      if t.isEmpty then []
      else [⟨m, "speaker_0".toList, "Speaker 0".toList, 0, msOf result.duration, t⟩]

/-- The body of the `start_transcription` handler's HTTP response. -/
inductive RespBody where
  | err (msg : Str)
  | okStart (jobId : Str) (provider_job_id : Str) (status : Str)
deriving DecidableEq

/-- The `start_transcription` handler's HTTP response. -/
structure HandlerResp where
  status : ℕ
  body : RespBody
deriving DecidableEq

/-- `${elevenLabsResponse.status}: ${errorText}` — the error text persisted on
the job when the provider answers non-2xx. -/
def upstreamErrText (status : ℕ) (body : Str) : Str :=
  Nat.toDigits 10 status ++ (": ".toList) ++ body

/-- The `start_transcription` handler (`supabase/functions/start_transcription`)
from the point where the meeting, settings and API key have been resolved:
meeting → `transcribing`, job inserted as `running`, signed-URL failure path,
the provider call's non-ok path (`!elevenLabsResponse.ok`), and the success
path (job → `completed` with raw response, segment build/insert, meeting →
`ready` with duration).  `jsOk` of an HTTP response is `200 ≤ status < 300`. -/
def startTranscriptionCore (meetingId : Str) (options : Option SyncOptions)
    (settings : Option Settings) (jobId : Str) (signedUrl : Option Str)
    (upstream : UpstreamResp) (db : DB) : DB × List DBWrite × HandlerResp :=
  let db1 := updateMeetingRows db meetingId (fun r =>
    { r with status := "transcribing".toList })
  let db2 := { db1 with jobs := db1.jobs ++
    [⟨jobId, meetingId, "elevenlabs".toList, "running".toList, none, none, none⟩] }
  let t2 := [DBWrite.updateMeeting meetingId ("transcribing".toList),
             DBWrite.insertJob jobId ("running".toList)]
  match signedUrl with
  | none =>
    let db3 := updateJobRows db2 jobId (fun r =>
      { r with status := "failed".toList,
               error := some ("Could not create signed URL".toList) })
    let db4 := updateMeetingRows db3 meetingId (fun r =>
      { r with status := "failed".toList })
    (db4,
     t2 ++ [DBWrite.updateJob jobId ("failed".toList),
            DBWrite.updateMeeting meetingId ("failed".toList)],
     ⟨500, RespBody.err ("Could not create signed URL for media file".toList)⟩)
  | some _ =>
    if 200 ≤ upstream.status ∧ upstream.status < 300 then
      let result := upstream.result
      let db3 := updateJobRows db2 jobId (fun r =>
        { r with status := "completed".toList, raw_response := some result,
                 provider_job_id := some jobId })
      let diarize := effDiarize options settings
      let segs := syncSegments meetingId result diarize
      let db4 := if segs.isEmpty then db3
                 else { db3 with segments := db3.segments ++ segs }
      let db5 := updateMeetingRows db4 meetingId (fun r =>
        { r with status := "ready".toList,
                 duration_seconds := jsDuration result.duration })
      (db5,
       t2 ++ [DBWrite.updateJob jobId ("completed".toList)] ++
         (if segs.isEmpty then []
          else [DBWrite.insertSegments meetingId segs.length]) ++
         [DBWrite.updateMeeting meetingId ("ready".toList)],
       ⟨200, RespBody.okStart jobId jobId ("completed".toList)⟩)
    else
      let db3 := updateJobRows db2 jobId (fun r =>
        { r with status := "failed".toList,
                 error := some (upstreamErrText upstream.status upstream.body) })
      let db4 := updateMeetingRows db3 meetingId (fun r =>
        { r with status := "failed".toList })
      (db4,
       t2 ++ [DBWrite.updateJob jobId ("failed".toList),
              DBWrite.updateMeeting meetingId ("failed".toList)],
       ⟨500, RespBody.err (("ElevenLabs API error: ".toList) ++ upstream.body)⟩)

/-- `(existingSummaries?.[0]?.version ?? 0)` where the query is
`order('version', { ascending: false }).limit(1)` — i.e. the maximum version
among the rows, or `0` when there are none. -/
def maxVersion (l : List ℤ) : ℤ :=
  match l with
  | [] => 0
  | v :: vs => vs.foldl max v

/-- The version-assignment and insert tail of the `generate_summary` handler
(`src/unnamed/part_004`), reached on every successful generation: read the
recording's maximum summary version, insert a row with that plus one, and
return the new version and content. -/
def generateSummaryCore (meetingId templateId model contentMd summaryId : Str)
    (db : DB) : DB × List DBWrite × (ℤ × Str) :=
  let versions := (db.summaries.filter (fun s => s.meeting_id == meetingId)).map
    (fun s => s.version)
  let nextVersion := maxVersion versions + 1
  let row : SummaryRow := ⟨summaryId, meetingId, nextVersion, templateId, model, contentMd⟩
  ({ db with summaries := db.summaries ++ [row] },
   [DBWrite.insertSummary meetingId nextVersion],
   (nextVersion, contentMd))

/-- `'{{TRANSCRIPT}}'`, written with escaped braces. -/
def trPat : Str := "\x7b\x7bTRANSCRIPT\x7d\x7d".toList

/-- `'{{INSTRUCTIONS}}'`, written with escaped braces. -/
def insPat : Str := "\x7b\x7bINSTRUCTIONS\x7d\x7d".toList

/-- `template.user_prompt.replace('{{TRANSCRIPT}}', transcriptText)
.replace('{{INSTRUCTIONS}}', userInstructions || 'None')` from
`generate_summary`. -/
def renderUserPrompt (userPromptTemplate transcriptText : Str)
    (userInstructions : Option Str) : Str :=
  replaceFirst (replaceFirst userPromptTemplate trPat transcriptText)
    insPat (jsOrStr userInstructions ("None".toList))

/-- Modelled from the spec (§4.4): the job-status transition table
`queued → running → (completed or failed)`, as a reachability relation. -/
def jobStatusReachable (a b : Str) : Bool :=
  (a = "queued".toList ∧
    (b = "running".toList ∨ b = "completed".toList ∨ b = "failed".toList)) ∨
  (a = "running".toList ∧ (b = "completed".toList ∨ b = "failed".toList))

/-- A placeholder word used only as the default of `List.headD`. -/
def wDummy : Word := ⟨none, none, none, none⟩

/-- A word whose text itself contains a space. -/
def spaceWord : Word := ⟨some ("A".toList), some 0, some 1, some ("a b".toList)⟩

/-- A meeting row in the `transcribing` state. -/
def meetingM : MeetingRow := ⟨"m".toList, "transcribing".toList, none, "p".toList⟩

/-- A `running` job for meeting `m`. -/
def jobRunning : JobRow :=
  ⟨"j".toList, "m".toList, "elevenlabs".toList, "running".toList, none, none, none⟩

/-- The same job after it reached the terminal `completed` state. -/
def jobCompleted : JobRow := { jobRunning with status := "completed".toList }

/-- A database holding meeting `m` and its `running` job `j`. -/
def dbRunning : DB := ⟨[meetingM], [jobRunning], [], []⟩

/-- A database holding meeting `m` and its already-`completed` job `j`. -/
def dbCompleted : DB := ⟨[meetingM], [jobCompleted], [], []⟩

/-- A successful provider payload with one word and a 2-second duration. -/
def okPayload : ProviderResult :=
  ⟨none, none, some [⟨some ("A".toList), some 0, some 1, some ("hi".toList)⟩],
   none, some 2⟩

/-- A failure payload (`status: 'failed'`, `error: 'boom'`). -/
def failPayload : ProviderResult :=
  ⟨some ("failed".toList), some ("boom".toList), none, none, none⟩

/-- A successful payload with no word-level data but a plain text transcript. -/
def textOnlyPayload : ProviderResult :=
  ⟨none, none, none, some ("hello world".toList), some 2⟩

/-- A webhook environment with no configured secret. -/
def envNone : WebhookEnv := ⟨none⟩

/-- A successful callback delivery for job `j`. -/
def reqOk : WebhookReq := ⟨none, some ("j".toList), okPayload⟩

/-- A failure callback delivery for job `j`. -/
def reqFail : WebhookReq := ⟨none, some ("j".toList), failPayload⟩

/-- The write trace the synchronous path actually produces on a successful
one-segment run for meeting `m` and job `j`. -/
def c5trace : List DBWrite :=
  [DBWrite.updateMeeting ("m".toList) ("transcribing".toList),
   DBWrite.insertJob ("j".toList) ("running".toList),
   DBWrite.updateJob ("j".toList) ("completed".toList),
   DBWrite.insertSegments ("m".toList) 1,
   DBWrite.updateMeeting ("m".toList) ("ready".toList)]

/-- A database where meeting `m` already has summaries at versions 1 and 2 and
another meeting has one at version 9. -/
def dbTwoSummaries : DB :=
  ⟨[meetingM], [], [],
   [⟨"s1".toList, "m".toList, 1, "t".toList, "mod".toList, "c1".toList⟩,
    ⟨"s2".toList, "m".toList, 2, "t".toList, "mod".toList, "c2".toList⟩,
    ⟨"sx".toList, "other".toList, 9, "t".toList, "mod".toList, "c3".toList⟩]⟩

example :
    buildSegments ("m".toList) scenarioAWords =
    [⟨"m".toList, "A".toList, "Speaker A".toList, 0, 900, "hi there".toList⟩,
     ⟨"m".toList, "B".toList, "Speaker B".toList, 1000, 1400, "hello".toList⟩] := by
  decide

/-- The numerator/denominator rounding formula is `round` of `q * c`. -/
theorem roundFormula_eq (q : ℚ) (c : ℤ) :
    (2 * c * q.num + q.den) / (2 * q.den) = round (q * c) := by
  have hden : ((q.den : ℚ)) ≠ 0 := Nat.cast_ne_zero.mpr q.den_nz
  have h : q * (c : ℚ) + 1 / 2 =
      ((2 * c * q.num + (q.den : ℤ) : ℤ) : ℚ) / ((2 * q.den : ℕ) : ℚ) := by
    conv_lhs => rw [← Rat.num_div_den q]
    push_cast
    field_simp
    ring
  rw [round_eq, h]
  rw [Rat.floor_intCast_div_natCast]
  push_cast
  ring_nf

/-- `jsRound` agrees with Mathlib's `round` on every rational. -/
theorem jsRound_eq_round (q : ℚ) : jsRound q = round q := by
  have := roundFormula_eq q 1
  simpa [jsRound] using this

/-- `msOf` is `Math.round((t ?? 0) * 1000)` in Mathlib terms. -/
theorem msOf_eq_round (t : Option ℚ) : msOf t = round ((t.getD 0) * 1000) := by
  have := roundFormula_eq (t.getD 0) 1000
  simpa [msOf] using this

example : msOf (some (mkRat 900 1000)) = 900 := by decide

theorem buildLoop_eq_runsAux (m : Str) :
    ∀ (rest : List Word) (v : Word) (vs : List Word),
    buildLoop m rest (spkOf v) (msStart v) ((v :: vs).map wtext)
      (msEnd (vs.getLastD v))
    = (runsAux (spkOf v) (v :: vs) rest).map (segOfRun m) := by
  intro rest
  induction rest with
  | nil =>
    intro v vs
    simp [buildLoop, runsAux, segOfRun]
  | cons w ws ih =>
    intro v vs
    by_cases h : spkOf w = spkOf v
    · have h2 := ih v (vs ++ [w])
      rw [List.getLastD_concat] at h2
      rw [show List.map wtext (v :: (vs ++ [w]))
            = List.map wtext (v :: vs) ++ [wtext w] by simp] at h2
      rw [show v :: (vs ++ [w]) = (v :: vs) ++ [w] by simp] at h2
      rw [buildLoop, runsAux]
      simp only [h, ne_eq, not_true_eq_false, ite_false, if_false]
      exact h2
    · have h2 := ih w []
      simp only [List.map, List.getLastD] at h2
      rw [buildLoop, runsAux]
      simp only [ne_eq, h, not_false_iff, if_true, ite_true]
      rw [h2]
      simp [segOfRun]

theorem buildSegments_eq_runs (m : Str) (words : List Word) :
    buildSegments m words = (runs words).map (segOfRun m) := by
  cases words with
  | nil => rfl
  | cons w ws =>
    show buildLoop m (w :: ws) (spkOf w) (msStart w) [] (msStart w)
      = (runs (w :: ws)).map (segOfRun m)
    rw [buildLoop, runs, runsAux]
    simp only [ne_eq, not_true_eq_false, ite_false, if_neg, not_false_iff,
      List.nil_append]
    have := buildLoop_eq_runsAux m ws w []
    simp only [List.map, List.getLastD] at this
    exact this

theorem runsAux_flatten :
    ∀ (rest : List Word) (cur : Str) (acc : List Word),
    (runsAux cur acc rest).flatten = acc ++ rest := by
  intro rest
  induction rest with
  | nil =>
    intro cur acc
    cases acc <;> simp [runsAux]
  | cons w ws ih =>
    intro cur acc
    by_cases h : spkOf w = cur
    · rw [runsAux]
      simp only [h, ne_eq, not_true_eq_false, ite_false, if_false]
      rw [ih]
      simp
    · rw [runsAux]
      simp only [ne_eq, h, not_false_iff, ite_true, if_true]
      simp only [List.flatten_cons, ih]
      simp

theorem runs_flatten (words : List Word) : (runs words).flatten = words := by
  cases words with
  | nil => rfl
  | cons w ws =>
    rw [runs, runsAux_flatten]
    simp

theorem runsAux_mem_ne_nil :
    ∀ (rest : List Word) (cur : Str) (acc : List Word), acc ≠ [] →
    ∀ r ∈ runsAux cur acc rest, r ≠ [] := by
  intro rest
  induction rest with
  | nil =>
    intro cur acc hacc r hr
    rw [runsAux] at hr
    rw [if_neg (by simpa using hacc)] at hr
    simp at hr
    subst hr
    exact hacc
  | cons w ws ih =>
    intro cur acc hacc r hr
    rw [runsAux] at hr
    by_cases h : spkOf w = cur
    · rw [if_neg (by simp [h])] at hr
      exact ih cur (acc ++ [w]) (by simp) r hr
    · rw [if_pos (by simp [h])] at hr
      rcases List.mem_cons.mp hr with h1 | h1
      · subst h1; exact hacc
      · exact ih (spkOf w) [w] (by simp) r h1

theorem runs_mem_ne_nil (words : List Word) : ∀ r ∈ runs words, r ≠ [] := by
  cases words with
  | nil => simp [runs]
  | cons w ws =>
    intro r hr
    rw [runs, runsAux] at hr
    rw [if_neg (by simp)] at hr
    exact runsAux_mem_ne_nil ws (spkOf w) [w] (by simp) r hr

theorem runs_ne_nil (words : List Word) (h : words ≠ []) : runs words ≠ [] := by
  cases words with
  | nil => exact absurd rfl h
  | cons w ws =>
    rw [runs, runsAux]
    rw [if_neg (by simp)]
    simp only [List.nil_append]
    have := runsAux_flatten ws (spkOf w) [w]
    intro hc
    rw [hc] at this
    simp at this

theorem joinSep_cons_cons (sep x y : Str) (l : List Str) :
    joinSep sep (x :: y :: l) = x ++ sep ++ joinSep sep (y :: l) := rfl

theorem joinSep_append (sep : Str) :
    ∀ (a b : List Str), a ≠ [] → b ≠ [] →
    joinSep sep (a ++ b) = joinSep sep a ++ sep ++ joinSep sep b := by
  intro a
  induction a with
  | nil => intro b ha _; exact absurd rfl ha
  | cons x a' ih =>
    intro b _ hb
    cases a' with
    | nil =>
      cases b with
      | nil => exact absurd rfl hb
      | cons y ys => simp [joinSep]
    | cons x' a'' =>
      have h1 : (x :: x' :: a'') ++ b = x :: x' :: (a'' ++ b) := by simp
      rw [h1, joinSep_cons_cons, joinSep_cons_cons]
      rw [show x' :: (a'' ++ b) = (x' :: a'') ++ b by simp]
      rw [ih b (by simp) hb]
      simp [List.append_assoc]

theorem joinSep_flatten (sep : Str) :
    ∀ (L : List (List Str)), (∀ r ∈ L, r ≠ []) →
    joinSep sep (L.map (joinSep sep)) = joinSep sep L.flatten := by
  intro L
  induction L with
  | nil => intro _; rfl
  | cons r L' ih =>
    intro h
    cases L' with
    | nil => simp [joinSep]
    | cons r' L'' =>
      have hr : r ≠ [] := h r (by simp)
      have hr' : r' ≠ [] := h r' (by simp)
      have hfl : (r' :: L'').flatten ≠ [] := by
        cases r' with
        | nil => exact absurd rfl hr'
        | cons y ys => simp
      rw [List.map_cons, List.map_cons, List.flatten_cons]
      rw [joinSep_cons_cons]
      rw [show joinSep sep r' :: List.map (joinSep sep) L''
            = List.map (joinSep sep) (r' :: L'') by simp]
      rw [ih (fun s hs => h s (List.mem_cons_of_mem r hs))]
      rw [joinSep_append sep r (r' :: L'').flatten hr hfl]

theorem splitChar_not_mem (c : Char) :
    ∀ (s : Str), c ∉ s → splitChar c s = [s] := by
  intro s
  induction s with
  | nil => intro _; rfl
  | cons d s' ih =>
    intro h
    have hd : ¬ d = c := fun hc => h (by simp [hc])
    have hs' : c ∉ s' := fun hc => h (List.mem_cons_of_mem d hc)
    rw [splitChar]
    rw [if_neg hd, ih hs']

theorem splitChar_sep_append (c : Char) :
    ∀ (s t : Str), c ∉ s → splitChar c (s ++ c :: t) = s :: splitChar c t := by
  intro s
  induction s with
  | nil =>
    intro t _
    rw [List.nil_append, splitChar, if_pos rfl]
  | cons d s' ih =>
    intro t h
    have hd : ¬ d = c := fun hc => h (by simp [hc])
    have hs' : c ∉ s' := fun hc => h (List.mem_cons_of_mem d hc)
    rw [List.cons_append, splitChar, if_neg hd, ih t hs']

theorem splitChar_joinSep (c : Char) :
    ∀ (L : List Str), L ≠ [] → (∀ s ∈ L, c ∉ s) →
    splitChar c (joinSep [c] L) = L := by
  intro L
  induction L with
  | nil => intro hL _; exact absurd rfl hL
  | cons s L' ih =>
    intro _ h
    cases L' with
    | nil =>
      show splitChar c (joinSep [c] [s]) = [s]
      rw [show joinSep [c] [s] = s from rfl]
      exact splitChar_not_mem c s (h s (by simp))
    | cons s' L'' =>
      rw [joinSep_cons_cons]
      rw [show s ++ [c] ++ joinSep [c] (s' :: L'') = s ++ c :: joinSep [c] (s' :: L'') by simp]
      rw [splitChar_sep_append c s _ (h s (by simp))]
      rw [ih (by simp) (fun u hu => h u (List.mem_cons_of_mem s hu))]

theorem segOfRun_text (m : Str) (r : List Word) :
    (segOfRun m r).text = joinSep [' '] (r.map wtext) := by
  cases r with
  | nil => rfl
  | cons w ws => rfl

/-- C1 (amended): for every non-empty word sequence none of whose word texts
contains a space character, joining the built segments' texts with spaces and
splitting the result on spaces recovers exactly the original word-text
sequence, in order, with no word omitted or duplicated. -/
theorem claim1_segment_partition (m : Str) (words : List Word)
    (hne : words ≠ []) (hsp : ∀ w ∈ words, (' ') ∉ wtext w) :
    splitChar (' ') (joinSep [' '] ((buildSegments m words).map Segment.text))
      = words.map wtext := by
  rw [buildSegments_eq_runs, List.map_map]
  rw [show (Segment.text ∘ segOfRun m) = fun r => joinSep [' '] (r.map wtext) from
    funext (fun r => segOfRun_text m r)]
  rw [show (fun r => joinSep [' '] (List.map wtext r))
      = (joinSep [' '] ∘ fun r : List Word => List.map wtext r) from rfl]
  rw [← List.map_map]
  rw [joinSep_flatten [' '] ((runs words).map (fun r => r.map wtext)) (by
    intro r hr
    rcases List.mem_map.mp hr with ⟨r', hr', rfl⟩
    have h1 := runs_mem_ne_nil words r' hr'
    simpa [List.map_eq_nil_iff] using h1)]
  rw [← List.map_flatten, runs_flatten]
  refine splitChar_joinSep (' ') (words.map wtext) ?_ ?_
  · simpa [List.map_eq_nil_iff] using hne
  · intro s hs
    rcases List.mem_map.mp hs with ⟨w, hw, rfl⟩
    exact hsp w hw

/-- C1 witness: the amended partition property at Scenario A's words. -/
theorem claim1_segment_partition_witness :
    splitChar (' ')
      (joinSep [' '] ((buildSegments ("m".toList) scenarioAWords).map Segment.text))
      = scenarioAWords.map wtext :=
  claim1_segment_partition ("m".toList) scenarioAWords (by decide) (by decide)

/-- C1 counterexample: for the single word whose text is `'a b'`, splitting the
joined segment texts on spaces yields `['a', 'b']`, not the original one-word
text sequence `['a b']` — so the round-trip property as universally stated
fails when a word text itself contains a space. -/
theorem claim1_segment_partition_cx :
    ¬ (splitChar (' ')
        (joinSep [' '] ((buildSegments ("m".toList) [spaceWord]).map Segment.text))
        = [spaceWord].map wtext) := by
  decide

theorem runsAux_uniform :
    ∀ (rest : List Word) (cur : Str) (acc : List Word),
    (∀ u ∈ acc, spkOf u = cur) →
    ∀ r ∈ runsAux cur acc rest, ∀ u ∈ r, ∀ v ∈ r, spkOf u = spkOf v := by
  intro rest
  induction rest with
  | nil =>
    intro cur acc hacc r hr u hu v hv
    rw [runsAux] at hr
    by_cases h : acc.isEmpty
    · rw [if_pos h] at hr; simp at hr
    · rw [if_neg h] at hr
      simp at hr
      subst hr
      rw [hacc u hu, hacc v hv]
  | cons w ws ih =>
    intro cur acc hacc r hr u hu v hv
    rw [runsAux] at hr
    by_cases h : spkOf w = cur
    · rw [if_neg (by simp [h])] at hr
      refine ih cur (acc ++ [w]) ?_ r hr u hu v hv
      intro x hx
      rcases List.mem_append.mp hx with h1 | h1
      · exact hacc x h1
      · simp at h1; subst h1; exact h
    · rw [if_pos (by simp [h])] at hr
      rcases List.mem_cons.mp hr with h1 | h1
      · subst h1; rw [hacc u hu, hacc v hv]
      · refine ih (spkOf w) [w] ?_ r h1 u hu v hv
        intro x hx; simp at hx; subst hx; rfl

theorem runs_uniform (words : List Word) :
    ∀ r ∈ runs words, ∀ u ∈ r, ∀ v ∈ r, spkOf u = spkOf v := by
  cases words with
  | nil => simp [runs]
  | cons w ws =>
    intro r hr
    exact runsAux_uniform (w :: ws) (spkOf w) [] (by simp) r hr

theorem runsAux_head_cons :
    ∀ (rest : List Word) (cur : Str) (v : Word) (vs : List Word),
    ∃ t rs, runsAux cur (v :: vs) rest = (v :: t) :: rs := by
  intro rest
  induction rest with
  | nil =>
    intro cur v vs
    exact ⟨vs, [], by rw [runsAux, if_neg (by simp)]⟩
  | cons w ws ih =>
    intro cur v vs
    by_cases h : spkOf w = cur
    · rcases ih cur v (vs ++ [w]) with ⟨t, rs, ht⟩
      refine ⟨t, rs, ?_⟩
      rw [runsAux, if_neg (by simp [h])]
      rw [show (v :: vs) ++ [w] = v :: (vs ++ [w]) by simp]
      exact ht
    · exact ⟨vs, runsAux (spkOf w) [w] ws, by rw [runsAux, if_pos (by simp [h])]⟩

theorem runsAux_chain :
    ∀ (rest : List Word) (cur : Str) (v : Word) (vs : List Word),
    (∀ u ∈ v :: vs, spkOf u = cur) →
    List.Chain' (fun r s => spkOf (r.headD wDummy) ≠ spkOf (s.headD wDummy))
      (runsAux cur (v :: vs) rest) := by
  intro rest
  induction rest with
  | nil =>
    intro cur v vs _
    rw [runsAux, if_neg (by simp)]
    exact List.chain'_singleton _
  | cons w ws ih =>
    intro cur v vs hacc
    rw [runsAux]
    by_cases h : spkOf w = cur
    · rw [if_neg (by simp [h])]
      rw [show (v :: vs) ++ [w] = v :: (vs ++ [w]) by simp]
      refine ih cur v (vs ++ [w]) ?_
      intro u hu
      rcases List.mem_cons.mp hu with h1 | h1
      · rw [h1]; exact hacc v (by simp)
      · rcases List.mem_append.mp h1 with h2 | h2
        · exact hacc u (by simp [h2])
        · simp at h2; subst h2; exact h
    · rw [if_pos (by simp [h])]
      rw [List.chain'_cons']
      refine ⟨?_, ih (spkOf w) w [] (by intro u hu; simp at hu; subst hu; rfl)⟩
      intro b hb
      rcases runsAux_head_cons ws (spkOf w) w [] with ⟨t, rs, ht⟩
      rw [ht] at hb
      simp at hb
      subst hb
      simp only [List.headD_cons]
      rw [hacc v (by simp)]
      intro hc
      exact h hc.symm

theorem runs_chain (words : List Word) :
    List.Chain' (fun r s => spkOf (r.headD wDummy) ≠ spkOf (s.headD wDummy))
      (runs words) := by
  cases words with
  | nil => simp [runs]
  | cons w ws =>
    rw [runs, runsAux, if_neg (by simp)]
    simp only [List.nil_append]
    exact runsAux_chain ws (spkOf w) w [] (by intro u hu; simp at hu; subst hu; rfl)

/-- C2: the segment-building loop emits exactly one segment per maximal
same-speaker run — it equals the map of `segOfRun` (speaker and start of the
run's first word, end of its last word, space-joined texts) over `runs`; the
runs partition the input in order, are non-empty and speaker-constant, and
adjacent runs have different speakers (maximality); in particular Scenario A's
words (times in milliseconds: 0, 500, 900, 1000, 1400, carried by the provider
in seconds) yield exactly the segments `("A", 0, 900, "hi there")` and
`("B", 1000, 1400, "hello")`. -/
theorem claim2_speaker_runs :
    (∀ (m : Str) (words : List Word),
        buildSegments m words = (runs words).map (segOfRun m)) ∧
    (∀ words : List Word, (runs words).flatten = words) ∧
    (∀ words : List Word, ∀ r ∈ runs words,
        r ≠ [] ∧ ∀ u ∈ r, spkOf u = spkOf (r.headD wDummy)) ∧
    (∀ words : List Word,
        List.Chain' (fun r s => spkOf (r.headD wDummy) ≠ spkOf (s.headD wDummy))
          (runs words)) ∧
    buildSegments ("m".toList) scenarioAWords =
      [⟨"m".toList, "A".toList, "Speaker A".toList, 0, 900, "hi there".toList⟩,
       ⟨"m".toList, "B".toList, "Speaker B".toList, 1000, 1400, "hello".toList⟩] := by
  refine ⟨buildSegments_eq_runs, runs_flatten, ?_, runs_chain, by decide⟩
  intro words r hr
  refine ⟨runs_mem_ne_nil words r hr, ?_⟩
  intro u hu
  have huni := runs_uniform words r hr
  cases r with
  | nil => exact absurd rfl (runs_mem_ne_nil words [] hr)
  | cons v vs =>
    simp only [List.headD_cons]
    exact huni u hu v (by simp)

/-- C2 witness: the run decomposition applied to Scenario A's words. -/
theorem claim2_speaker_runs_witness :
    (runs scenarioAWords).flatten = scenarioAWords :=
  claim2_speaker_runs.2.1 scenarioAWords

theorem buildSegments_ne_nil (m : Str) (words : List Word) (h : words ≠ []) :
    buildSegments m words ≠ [] := by
  rw [buildSegments_eq_runs]
  simp only [ne_eq, List.map_eq_nil_iff]
  exact runs_ne_nil words h

/-- C3 is violated by the code (code bug): the webhook handler has no
terminal-status guard, so delivering the same successful payload twice for job
`j` inserts the transcript segments a second time — one delivery persists one
segment, two deliveries persist two (a duplicate), so the final segment set
differs. -/
theorem claim3_webhook_not_idempotent :
    (webhookHandler envNone reqOk dbRunning).1.segments.length = 1 ∧
    (webhookHandler envNone reqOk
        (webhookHandler envNone reqOk dbRunning).1).1.segments.length = 2 ∧
    (webhookHandler envNone reqOk
        (webhookHandler envNone reqOk dbRunning).1).1.segments ≠
      (webhookHandler envNone reqOk dbRunning).1.segments := by
  decide

/-- C4 is violated by the code (code bug): the webhook handler updates the job
status unconditionally, so delivering a failure payload for the already
`completed` job `j` moves it to `failed` — a transition that the
`queued → running → (completed | failed)` table does not allow from a terminal
state. -/
theorem claim4_status_regression :
    (findJob dbCompleted ("j".toList)).map JobRow.status
        = some ("completed".toList) ∧
    (findJob (webhookHandler envNone reqFail dbCompleted).1 ("j".toList)).map
        JobRow.status = some ("failed".toList) ∧
    jobStatusReachable ("completed".toList) ("failed".toList) = false := by
  decide

/-- C5 (amended): on a successful synchronous run that yields at least one
segment, the persistence writes happen in the order: recording `transcribing`,
job created (`running`), job set to its terminal `completed` status, segments
written, recording set to `ready` — i.e. the job reaches `completed` BEFORE its
segments are persisted, so an observer that reads the job as completed may not
yet find the segments. -/
theorem claim5_write_order (m : Str) (options : Option SyncOptions)
    (settings : Option Settings) (jobId u : Str) (up : UpstreamResp) (db : DB)
    (hok : 200 ≤ up.status ∧ up.status < 300)
    (hsegs : syncSegments m up.result (effDiarize options settings) ≠ []) :
    (startTranscriptionCore m options settings jobId (some u) up db).2.1 =
      [DBWrite.updateMeeting m ("transcribing".toList),
       DBWrite.insertJob jobId ("running".toList),
       DBWrite.updateJob jobId ("completed".toList),
       DBWrite.insertSegments m
         (syncSegments m up.result (effDiarize options settings)).length,
       DBWrite.updateMeeting m ("ready".toList)] := by
  rw [startTranscriptionCore]
  rw [if_pos hok]
  simp only [List.isEmpty_eq_true]
  rw [if_neg hsegs]
  simp

/-- C5 witness: the amended write order at a concrete successful run. -/
theorem claim5_write_order_witness :
    (startTranscriptionCore ("m".toList) none none ("j".toList)
        (some ("u".toList)) ⟨200, [], okPayload⟩ dbRunning).2.1 = c5trace := by
  rw [claim5_write_order ("m".toList) none none ("j".toList) ("u".toList)
    ⟨200, [], okPayload⟩ dbRunning (by decide) (by decide)]
  decide

/-- C5 counterexample: in the trace the synchronous path actually emits, the
job-terminal write (`completed`) strictly precedes the segment insert, and no
segment insert ever precedes it — refuting the claimed order
"segments written, then job set to its terminal status". -/
theorem claim5_write_order_cx :
    (startTranscriptionCore ("m".toList) none none ("j".toList)
        (some ("u".toList)) ⟨200, [], okPayload⟩ dbRunning).2.1 = c5trace ∧
    (∃ i j : Fin 5, i < j ∧
        c5trace.get i = DBWrite.updateJob ("j".toList) ("completed".toList) ∧
        c5trace.get j = DBWrite.insertSegments ("m".toList) 1) ∧
    ¬ (∃ i j : Fin 5, i < j ∧
        c5trace.get i = DBWrite.insertSegments ("m".toList) 1 ∧
        c5trace.get j = DBWrite.updateJob ("j".toList) ("completed".toList)) := by
  decide

theorem updateMeetingRows_twice (db : DB) (m : Str) (f g : MeetingRow → MeetingRow)
    (hf : ∀ r, (f r).id = r.id) :
    updateMeetingRows (updateMeetingRows db m f) m g
      = updateMeetingRows db m (fun r => g (f r)) := by
  unfold updateMeetingRows
  simp only [List.map_map]
  congr 1
  refine List.map_congr_left ?_
  intro r _
  simp only [Function.comp]
  by_cases h : r.id = m
  · rw [if_pos h, if_pos (by rw [hf r]; exact h), if_pos h]
  · rw [if_neg h, if_neg h, if_neg h]

theorem claim6_helper_sync_segs (m : Str) (r : ProviderResult)
    (options : Option SyncOptions) (settings : Option Settings)
    (hwords : r.words.getD [] ≠ []) (hdiar : effDiarize options settings = true) :
    syncSegments m r (effDiarize options settings)
      = buildSegments m (r.words.getD []) := by
  rw [syncSegments, hdiar]
  rw [if_pos ⟨by simpa using hwords, rfl⟩]

theorem claim6_helper_web_segs (m : Str) (r : ProviderResult)
    (hwords : r.words.getD [] ≠ []) :
    webhookSegments m r = buildSegments m (r.words.getD []) := by
  rw [webhookSegments]
  rw [if_neg (by simpa using hwords)]

/-- C6 (amended): for successful provider results that carry at least one word,
and with diarization enabled on the synchronous side, the webhook handler
persists the same transcript segments and produces the same final meeting rows
(status `ready`, same duration) as the synchronous path; the equivalence does
NOT extend to plain-text-only results (see the counterexample) and the webhook
ignores the diarization flag. -/
theorem claim6_webhook_sync_equiv
    (db : DB) (m jid jw u bodyS : Str) (options : Option SyncOptions)
    (settings : Option Settings) (env : WebhookEnv) (sec : Option Str)
    (r : ProviderResult) (job : JobRow)
    (hsec : secretReject env ⟨sec, some jw, r⟩ = false)
    (hjob : findJob db jw = some job) (hm : job.meeting_id = m)
    (hwords : r.words.getD [] ≠ [])
    (hdiar : effDiarize options settings = true)
    (hstatus : r.status ≠ some ("failed".toList))
    (herr : truthyStr r.error = false) :
    (startTranscriptionCore m options settings jid (some u) ⟨200, bodyS, r⟩ db).1.segments
      = (webhookHandler env ⟨sec, some jw, r⟩ db).1.segments ∧
    (startTranscriptionCore m options settings jid (some u) ⟨200, bodyS, r⟩ db).1.meetings
      = (webhookHandler env ⟨sec, some jw, r⟩ db).1.meetings := by
  have hb : buildSegments m (r.words.getD []) ≠ [] :=
    buildSegments_ne_nil m _ hwords
  have hsy := claim6_helper_sync_segs m r options settings hwords hdiar
  have hwe := claim6_helper_web_segs m r hwords
  rw [startTranscriptionCore, webhookHandler]
  rw [if_pos (show 200 ≤ 200 ∧ 200 < 300 by decide)]
  rw [if_neg (by rw [hsec]; exact Bool.false_ne_true)]
  dsimp only
  rw [hjob]
  dsimp only
  rw [if_neg (not_or.mpr ⟨hstatus, by rw [herr]; exact Bool.false_ne_true⟩)]
  rw [hm]
  rw [hsy, hwe]
  rw [if_neg (by simpa using hb), if_neg (by simpa using hb)]
  constructor
  · dsimp only [updateMeetingRows, updateJobRows]
  · dsimp only [updateMeetingRows, updateJobRows]
    rw [List.map_map]
    refine List.map_congr_left ?_
    intro x _
    simp only [Function.comp]
    by_cases h : x.id = m
    · simp [h]
    · simp [h]

/-- C6 witness: the amended equivalence at a concrete one-word result. -/
theorem claim6_webhook_sync_equiv_witness :
    (startTranscriptionCore ("m".toList) none none ("k".toList)
        (some ("u".toList)) ⟨200, [], okPayload⟩ dbRunning).1.segments
      = (webhookHandler envNone ⟨none, some ("j".toList), okPayload⟩
          dbRunning).1.segments ∧
    (startTranscriptionCore ("m".toList) none none ("k".toList)
        (some ("u".toList)) ⟨200, [], okPayload⟩ dbRunning).1.meetings
      = (webhookHandler envNone ⟨none, some ("j".toList), okPayload⟩
          dbRunning).1.meetings :=
  claim6_webhook_sync_equiv dbRunning ("m".toList) ("k".toList) ("j".toList)
    ("u".toList) [] none none envNone none okPayload jobRunning
    (by decide) (by decide) (by decide) (by decide) (by decide) (by decide)
    (by decide)

/-- C6 counterexample: for a successful result with no word-level data but a
plain text transcript (`text: 'hello world'`, duration 2 s), the synchronous
path persists one fallback segment while the webhook handler persists no
segment at all — so the two paths do not compute the same transcript segments
for every successful result. -/
theorem claim6_webhook_sync_equiv_cx :
    syncSegments ("m".toList) textOnlyPayload true
      = [⟨"m".toList, "speaker_0".toList, "Speaker 0".toList, 0, 2000,
          "hello world".toList⟩] ∧
    webhookSegments ("m".toList) textOnlyPayload = [] ∧
    (startTranscriptionCore ("m".toList) none none ("k".toList)
        (some ("u".toList)) ⟨200, [], textOnlyPayload⟩ dbRunning).1.segments ≠
      (webhookHandler envNone ⟨none, some ("j".toList), textOnlyPayload⟩
          dbRunning).1.segments := by
  decide

theorem foldl_max_bounds :
    ∀ (vs : List ℤ) (a : ℤ), a ≤ vs.foldl max a ∧ ∀ x ∈ vs, x ≤ vs.foldl max a := by
  intro vs
  induction vs with
  | nil => intro a; exact ⟨le_refl a, by simp⟩
  | cons w vs ih =>
    intro a
    constructor
    · exact le_trans (le_max_left a w) (ih (max a w)).1
    · intro x hx
      rcases List.mem_cons.mp hx with h1 | h1
      · rw [h1]
        exact le_trans (le_max_right a w) (ih (max a w)).1
      · exact (ih (max a w)).2 x h1

theorem foldl_max_mem :
    ∀ (vs : List ℤ) (a : ℤ), vs.foldl max a = a ∨ vs.foldl max a ∈ vs := by
  intro vs
  induction vs with
  | nil => intro a; exact Or.inl rfl
  | cons w vs ih =>
    intro a
    rcases ih (max a w) with h | h
    · rcases max_choice a w with hc | hc
      · exact Or.inl (by rw [List.foldl_cons, h, hc])
      · exact Or.inr (by rw [List.foldl_cons, h, hc]; exact List.mem_cons_self w vs)
    · exact Or.inr (List.mem_cons_of_mem w h)

/-- C7: each successful summary generation appends exactly one Summary row for
the recording, whose version is one greater than the maximum existing version
among that recording's summaries (so 1 when none exists: the queried maximum
defaults to 0), every existing version is strictly below it, and the returned
version equals the persisted one. -/
theorem claim7_summary_version
    (meetingId templateId model contentMd summaryId : Str) (db : DB) :
    let versions := (db.summaries.filter
      (fun s => s.meeting_id == meetingId)).map (fun s => s.version)
    let out := generateSummaryCore meetingId templateId model contentMd summaryId db
    let v := maxVersion versions + 1
    out.1.summaries = db.summaries ++
        [⟨summaryId, meetingId, v, templateId, model, contentMd⟩] ∧
    out.2.2.1 = v ∧
    (versions = [] → v = 1) ∧
    (∀ x ∈ versions, x < v) ∧
    (versions ≠ [] → v - 1 ∈ versions) := by
  intro versions out v
  refine ⟨rfl, rfl, ?_, ?_, ?_⟩
  · intro h
    show maxVersion versions + 1 = 1
    rw [h]
    rfl
  · intro x hx
    show x < maxVersion versions + 1
    rw [Int.lt_add_one_iff]
    cases hv : versions with
    | nil => rw [hv] at hx; simp at hx
    | cons w vs =>
      rw [hv] at hx
      rw [maxVersion]
      rcases List.mem_cons.mp hx with h1 | h1
      · rw [h1]; exact (foldl_max_bounds vs w).1
      · exact (foldl_max_bounds vs w).2 x h1
  · intro h
    show maxVersion versions + 1 - 1 ∈ versions
    rw [add_sub_cancel_right]
    cases hv : versions with
    | nil => exact absurd hv h
    | cons w vs =>
      rw [maxVersion]
      rcases foldl_max_mem vs w with h1 | h1
      · rw [h1]; exact List.mem_cons_self w vs
      · exact List.mem_cons_of_mem w h1

/-- C7 witness: with existing versions 1 and 2 for the recording (and an
unrelated version 9 on another recording), the next generation persists and
returns version 3. -/
theorem claim7_summary_version_witness :
    (generateSummaryCore ("m".toList) ("t".toList) ("mod".toList) ("c".toList)
        ("s3".toList) dbTwoSummaries).2.2.1 = 3 := by
  have h := claim7_summary_version ("m".toList) ("t".toList) ("mod".toList)
    ("c".toList) ("s3".toList) dbTwoSummaries
  rw [h.2.1]
  decide

/-- C8: whenever the provider answers with a non-2xx status, the synchronous
handler leaves exactly one job row for the fresh job id, in status `failed`
with an error text that has the upstream body as a suffix, marks the meeting
`failed`, inserts no segments, and returns a structured 500 error response
(rather than throwing). -/
theorem claim8_upstream_failure (m : Str) (options : Option SyncOptions)
    (settings : Option Settings) (jobId u : Str) (up : UpstreamResp) (db : DB)
    (hfresh : ∀ r ∈ db.jobs, r.id ≠ jobId)
    (hfail : ¬ (200 ≤ up.status ∧ up.status < 300)) :
    (startTranscriptionCore m options settings jobId (some u) up db).1.jobs
      = db.jobs ++ [⟨jobId, m, "elevenlabs".toList, "failed".toList,
          some (upstreamErrText up.status up.body), none, none⟩] ∧
    (startTranscriptionCore m options settings jobId (some u) up db).1.meetings
      = db.meetings.map
          (fun r => if r.id = m then { r with status := "failed".toList } else r) ∧
    (startTranscriptionCore m options settings jobId (some u) up db).1.segments
      = db.segments ∧
    (startTranscriptionCore m options settings jobId (some u) up db).2.2
      = ⟨500, RespBody.err (("ElevenLabs API error: ".toList) ++ up.body)⟩ ∧
    up.body <:+ upstreamErrText up.status up.body := by
  rw [startTranscriptionCore]
  dsimp only
  rw [if_neg hfail]
  refine ⟨?_, ?_, rfl, rfl, ?_⟩
  · dsimp only [updateJobRows, updateMeetingRows]
    simp only [List.map_append, List.map_cons, List.map_nil]
    rw [show List.map
        (fun r => if r.id = jobId then
          { r with status := "failed".toList,
                   error := some (upstreamErrText up.status up.body) } else r)
        db.jobs = db.jobs from
      (List.map_congr_left fun r hr => if_neg (hfresh r hr)).trans
        (List.map_id db.jobs)]
    simp
  · dsimp only [updateJobRows, updateMeetingRows]
    rw [List.map_map]
    refine List.map_congr_left ?_
    intro x _
    simp only [Function.comp]
    by_cases h : x.id = m
    · simp [h]
    · simp [h]
  · exact ⟨Nat.toDigits 10 up.status ++ (": ".toList), by
      rw [upstreamErrText, List.append_assoc]⟩

/-- C8 witness: the failure path at a concrete HTTP 500 with body `boom`. -/
theorem claim8_upstream_failure_witness :
    (startTranscriptionCore ("m".toList) none none ("k".toList)
        (some ("u".toList)) ⟨500, "boom".toList, okPayload⟩ dbRunning).1.jobs
      = dbRunning.jobs ++ [⟨"k".toList, "m".toList, "elevenlabs".toList,
          "failed".toList, some (upstreamErrText 500 ("boom".toList)),
          none, none⟩] ∧
    ("boom".toList) <:+ upstreamErrText 500 ("boom".toList) := by
  have h := claim8_upstream_failure ("m".toList) none none ("k".toList)
    ("u".toList) ⟨500, "boom".toList, okPayload⟩ dbRunning (by decide) (by decide)
  exact ⟨h.1, h.2.2.2.2⟩

/-- C9 (amended): with a non-empty configured secret, a mismatched secret is
rejected 403 without touching the database; a missing job identifier is
rejected 400 (bad request, not 404) without touching the database; an unknown
job identifier is rejected 404 without touching the database. -/
theorem claim9_callback_rejection (env : WebhookEnv) (req : WebhookReq) (db : DB) :
    (∀ s : Str, env.webhookSecret = some s → s.isEmpty = false →
        req.secret ≠ some s →
        webhookHandler env req db = (db, [], ⟨403, "Forbidden".toList⟩)) ∧
    (secretReject env req = false → req.job_id = none →
        webhookHandler env req db = (db, [], ⟨400, "Missing job_id".toList⟩)) ∧
    (∀ j : Str, secretReject env req = false → req.job_id = some j →
        findJob db j = none →
        webhookHandler env req db = (db, [], ⟨404, "Job not found".toList⟩)) := by
  refine ⟨?_, ?_, ?_⟩
  · intro s hs hne hneq
    have hrej : secretReject env req = true := by
      simp only [secretReject, hs]
      rw [Bool.and_eq_true]
      exact ⟨by simp [hne], by simpa [bne_iff_ne] using hneq⟩
    rw [webhookHandler, if_pos hrej]
  · intro hsec hjid
    rw [webhookHandler, if_neg (by rw [hsec]; exact Bool.false_ne_true), hjid]
  · intro j hsec hjid hfind
    rw [webhookHandler, if_neg (by rw [hsec]; exact Bool.false_ne_true), hjid]
    dsimp only
    rw [hfind]

/-- C9 witness: a mismatched secret against the configured secret `s` is
rejected 403 and the database is untouched. -/
theorem claim9_callback_rejection_witness :
    webhookHandler ⟨some ("s".toList)⟩
        ⟨some ("x".toList), some ("j".toList), okPayload⟩ dbRunning
      = (dbRunning, [], ⟨403, "Forbidden".toList⟩) :=
  (claim9_callback_rejection ⟨some ("s".toList)⟩
      ⟨some ("x".toList), some ("j".toList), okPayload⟩ dbRunning).1
    ("s".toList) rfl (by decide) (by decide)

/-- C9 counterexample: (1) a request with a matching secret but a missing job
identifier is answered 400 (bad request), not the claimed not-found status;
(2) with the secret configured as the empty string, a mismatched secret (`x`)
is NOT rejected — the handler processes the payload and mutates the database. -/
theorem claim9_callback_rejection_cx :
    ((webhookHandler ⟨some ("s".toList)⟩
        ⟨some ("s".toList), none, okPayload⟩ dbRunning).2.2.status = 400 ∧
      (webhookHandler ⟨some ("s".toList)⟩
        ⟨some ("s".toList), none, okPayload⟩ dbRunning).2.2.status ≠ 404) ∧
    (webhookHandler ⟨some []⟩
        ⟨some ("x".toList), some ("j".toList), okPayload⟩ dbRunning).1
      ≠ dbRunning := by
  decide

theorem replaceFirst_at_occurrence (pat rep rest : Str) :
    ∀ (p : Str), pat ≠ [] →
    (∀ i, i < p.length → ¬ pat.isPrefixOf (p.drop i ++ (pat ++ rest)) = true) →
    replaceFirst (p ++ (pat ++ rest)) pat rep = p ++ (rep ++ rest) := by
  intro p
  induction p with
  | nil =>
    intro hpat _
    rw [List.nil_append, List.nil_append]
    cases hp : pat with
    | nil => exact absurd hp hpat
    | cons a pa =>
      subst hp
      rw [show (a :: pa) ++ rest = a :: (pa ++ rest) by simp]
      rw [replaceFirst]
      rw [if_pos (by
        rw [List.isPrefixOf_iff_prefix]
        exact ⟨rest, by simp⟩)]
      rw [show a :: (pa ++ rest) = (a :: pa) ++ rest by simp]
      rw [List.drop_left]
  | cons d p' ih =>
    intro hpat h
    have h0 := h 0 (by simp)
    rw [List.cons_append, replaceFirst]
    rw [if_neg (by
      simpa using h0)]
    rw [ih hpat (fun i hi => by
      have := h (i + 1) (by simpa using Nat.succ_lt_succ hi)
      simpa using this)]
    simp

/-- C10: rendering the summary prompt substitutes only the FIRST occurrence of
`'{{TRANSCRIPT}}'` and (in the result) the FIRST occurrence of
`'{{INSTRUCTIONS}}'`; everything after those occurrences — including any later
copies of either placeholder inside `b` or `c` — is passed through verbatim,
and absent user instructions are rendered as the literal text `'None'`. -/
theorem claim10_prompt_render (a b c transcript : Str)
    (hA : ∀ i, i < a.length →
        ¬ trPat.isPrefixOf (a.drop i ++ (trPat ++ (b ++ (insPat ++ c)))) = true)
    (hB : ∀ i, i < (a ++ (transcript ++ b)).length →
        ¬ insPat.isPrefixOf
            ((a ++ (transcript ++ b)).drop i ++ (insPat ++ c)) = true) :
    renderUserPrompt (a ++ (trPat ++ (b ++ (insPat ++ c)))) transcript none
      = a ++ (transcript ++ (b ++ (("None".toList) ++ c))) := by
  rw [renderUserPrompt]
  rw [replaceFirst_at_occurrence trPat transcript (b ++ (insPat ++ c)) a
    (by decide) hA]
  rw [show a ++ (transcript ++ (b ++ (insPat ++ c)))
      = (a ++ (transcript ++ b)) ++ (insPat ++ c) by simp]
  rw [replaceFirst_at_occurrence insPat (jsOrStr none ("None".toList)) c
    (a ++ (transcript ++ b)) (by decide) hB]
  show (a ++ (transcript ++ b)) ++ (("None".toList) ++ c) = _
  simp

/-- C10 witness: with a template whose tail contains a second copy of each
placeholder, only the first copies are substituted, the second copies survive
verbatim, and missing instructions render as `'None'`. -/
theorem claim10_prompt_render_witness :
    renderUserPrompt (("Summarize: ".toList) ++ (trPat ++
        (((" mid ".toList) ++ trPat) ++ (insPat ++ ((" tail ".toList) ++ insPat)))))
      ("T".toList) none
      = ("Summarize: ".toList) ++ (("T".toList) ++
          (((" mid ".toList) ++ trPat) ++
            (("None".toList) ++ ((" tail ".toList) ++ insPat)))) :=
  claim10_prompt_render ("Summarize: ".toList) ((" mid ".toList) ++ trPat)
    ((" tail ".toList) ++ insPat) ("T".toList) (by decide) (by decide)
